import Mathlib

/-!
Verification of the in-memory rate limiter (`utils/rateLimiter.js`).

Times are modelled as `Int` (JS epoch milliseconds).  The mutable
module-level `Map` keyed by IP is modelled as an association list
`Store`, threaded explicitly through the operations.  JS truthiness of
`arr[0] || now` (where the number `0` is falsy) is modelled by `jsOrNow`.
-/

namespace RateLimiter

/-- One per-identity record (the value stored in `requestCounts`). -/
structure RecordData where
  minuteTimestamps : List Int
  hourTimestamps : List Int
  blockedUntil : Option Int
  deriving Repr, DecidableEq

/-- The record created on first sight of an identity (lines 91-97). -/
def emptyRecord : RecordData := ⟨[], [], none⟩

/-- Which of the three deny-return sites of `checkRateLimit` produced the
decision; the source distinguishes them by their `message` strings. -/
inductive Reason where
  | AlreadyBlocked
  | ShortWindowExceeded
  | LongWindowExceeded
  deriving Repr, DecidableEq

/-- The object returned by `checkRateLimit`:
`{ allowed, remaining, resetAt, message }`, with the message replaced by
the `Reason` tag of the return site that built it (`none` when allowed). -/
structure Decision where
  allowed : Bool
  remaining : Int
  resetAt : Int
  reason : Option Reason
  deriving Repr, DecidableEq

/-- The module-level `requestCounts` map, as an association list. -/
abbrev Store := List (String × RecordData)

/-- Map lookup, `requestCounts.get(ip)`. -/
def Store.get : Store → String → Option RecordData
  | [], _ => none
  | (k, v) :: rest, ip => if k = ip then some v else Store.get rest ip

/-- Map update, `requestCounts.set(ip, data)` (overwrite in place,
insert if absent). -/
def Store.set : Store → String → RecordData → Store
  | [], ip, r => [(ip, r)]
  | (k, v) :: rest, ip, r =>
      if k = ip then (k, r) :: rest else (k, v) :: Store.set rest ip r

/-- Configuration (`RATE_LIMIT_CONFIG`); environment-derived caps are
parameters, window sizes and block duration keep their source defaults
as default field values. -/
structure RateLimitConfig where
  MAX_REQUESTS_PER_MINUTE : Nat
  MAX_REQUESTS_PER_HOUR : Nat
  MINUTE_WINDOW : Int := 60000
  HOUR_WINDOW : Int := 3600000
  BLOCK_DURATION : Int := 600000
  deriving Repr, DecidableEq

/-- Sweep staleness bound, `MAX_ENTRY_AGE = 300000` (5 minutes). -/
def MAX_ENTRY_AGE : Int := 300000

/-- JS `x || now` on an optional number: `0`, like absence, is falsy. -/
def jsOrNow (x : Option Int) (now : Int) : Int :=
  match x with
  | some t => if t = 0 then now else t
  | none => now

/-- The lazy window prune (lines 112-117):
`timestamps.filter(t => now - t < window)`, one call per window. -/
def pruneTimestamps (window now : Int) (ts : List Int) : List Int :=
  ts.filter fun t => now - t < window

/-- Lines 111-165 of `checkRateLimit`: the part after the block check.
Prunes both windows, tests the two thresholds, and either blocks or
records the hit and builds the `allowed` response.  Returns the decision
together with the record as left in the map. -/
def checkUnblocked (cfg : RateLimitConfig) (now : Int) (data : RecordData) :
    Decision × RecordData :=
  let minuteTs := pruneTimestamps cfg.MINUTE_WINDOW now data.minuteTimestamps
  let hourTs := pruneTimestamps cfg.HOUR_WINDOW now data.hourTimestamps
  if cfg.MAX_REQUESTS_PER_MINUTE ≤ minuteTs.length then
    (⟨false, 0, now + cfg.BLOCK_DURATION, some Reason.ShortWindowExceeded⟩,
     ⟨minuteTs, hourTs, some (now + cfg.BLOCK_DURATION)⟩)
  else if cfg.MAX_REQUESTS_PER_HOUR ≤ hourTs.length then
    (⟨false, 0, now + cfg.BLOCK_DURATION, some Reason.LongWindowExceeded⟩,
     ⟨minuteTs, hourTs, some (now + cfg.BLOCK_DURATION)⟩)
  else
    let minuteTs' := minuteTs ++ [now]
    let hourTs' := hourTs ++ [now]
    let remaining :=
      min ((cfg.MAX_REQUESTS_PER_MINUTE : Int) - minuteTs'.length)
          ((cfg.MAX_REQUESTS_PER_HOUR : Int) - hourTs'.length)
    let oldestMinute := jsOrNow minuteTs'.head? now
    let oldestHour := jsOrNow hourTs'.head? now
    let resetAt := min (oldestMinute + cfg.MINUTE_WINDOW) (oldestHour + cfg.HOUR_WINDOW)
    (⟨true, remaining, resetAt, none⟩, ⟨minuteTs', hourTs', none⟩)

/-- The operation `checkRateLimit(ip)` (lines 86-166), with `Date.now()`
and the map passed explicitly.  `isBlocked` (lines 66-79) is inlined: when
`blockedUntil` is set and `now < blockedUntil` the call is denied without
touching the hit sequences; when it is set but expired it is cleared and
the call proceeds. -/
def checkRateLimit (cfg : RateLimitConfig) (now : Int) (ip : String)
    (store : Store) : Decision × Store :=
  let data := (Store.get store ip).getD emptyRecord
  match data.blockedUntil with
  | some b =>
      if now < b then
        (⟨false, 0, b, some Reason.AlreadyBlocked⟩, Store.set store ip data)
      else
        let res := checkUnblocked cfg now { data with blockedUntil := none }
        (res.1, Store.set store ip res.2)
  | none =>
      let res := checkUnblocked cfg now data
      (res.1, Store.set store ip res.2)

/-- The expression `Math.min(minuteTimestamps[0] || now,
hourTimestamps[0] || now, blockedUntil || 0)` from `cleanupOldEntries`
(lines 48-52); `blockedUntil || 0` yields `0` when `blockedUntil` is
`null` (and when it is `0`). -/
def oldestEntryTimestamp (now : Int) (data : RecordData) : Int :=
  min (min (jsOrNow data.minuteTimestamps.head? now)
           (jsOrNow data.hourTimestamps.head? now))
      (data.blockedUntil.getD 0)

/-- The sweep `cleanupOldEntries()` (lines 44-58): delete every record
whose `oldestEntryTimestamp` is more than `MAX_ENTRY_AGE` in the past. -/
def cleanupOldEntries (now : Int) (store : Store) : Store :=
  store.filter fun e => ¬ now - oldestEntryTimestamp now e.2 > MAX_ENTRY_AGE

/-- A sequence of `checkRateLimit` calls for one identity at the given
times, collecting the decisions. -/
def runChecks (cfg : RateLimitConfig) (ip : String) :
    List Int → Store → List Decision × Store
  | [], store => ([], store)
  | t :: ts, store =>
      let res := checkRateLimit cfg t ip store
      let rest := runChecks cfg ip ts res.2
      (res.1 :: rest.1, rest.2)

/-- A sequence of `checkRateLimit` calls for arbitrary identities
(time, identity), keeping only the final map. -/
def runEvents (cfg : RateLimitConfig) : List (Int × String) → Store → Store
  | [], store => store
  | e :: es, store => runEvents cfg es (checkRateLimit cfg e.1 e.2 store).2

/-- The configuration with every field at its source default
(`RATE_LIMIT_PER_MINUTE = 10`, `RATE_LIMIT_PER_HOUR = 60`). -/
def defaultRateLimitConfig : RateLimitConfig :=
  { MAX_REQUESTS_PER_MINUTE := 10, MAX_REQUESTS_PER_HOUR := 60 }

/-- The configuration of the spec's concrete scenario:
`maxPerShortWindow = 2`, all other fields at their source defaults. -/
def scenarioConfig : RateLimitConfig :=
  { MAX_REQUESTS_PER_MINUTE := 2, MAX_REQUESTS_PER_HOUR := 60 }

/-- Modelled from the spec (for comparison with the code, claim C4):
the stated formula for the Allowed `resetAt`,
`min(oldestShortTimestamp + shortWindowDuration,
oldestLongTimestamp + longWindowDuration)` over the post-append
sequences, with `now + windowDuration` when a sequence has no entry. -/
def specResetAt (cfg : RateLimitConfig) (now : Int)
    (minuteTs hourTs : List Int) : Int :=
  min ((minuteTs.head?.getD now) + cfg.MINUTE_WINDOW)
      ((hourTs.head?.getD now) + cfg.HOUR_WINDOW)

end RateLimiter

namespace RateLimiter

theorem Store.get_set_self (st : Store) (ip : String) (r : RecordData) :
    Store.get (Store.set st ip r) ip = some r := by
  induction st with
  | nil => simp [Store.set, Store.get]
  | cons e rest ih =>
      obtain ⟨k, v⟩ := e
      by_cases hk : k = ip
      · simp [Store.set, Store.get, hk]
      · simp [Store.set, Store.get, hk, ih]

theorem Store.get_set_ne (st : Store) (ip ip' : String) (r : RecordData)
    (h : ip ≠ ip') :
    Store.get (Store.set st ip r) ip' = Store.get st ip' := by
  induction st with
  | nil => simp [Store.set, Store.get, h]
  | cons e rest ih =>
      obtain ⟨k, v⟩ := e
      by_cases hk : k = ip
      · subst hk
        simp [Store.set, Store.get, h, ih]
      · simp [Store.set, Store.get, hk, ih]


/-- Claim C1 (Sweep safety), evaluated at a failing input.  The claim
states that a record holding a hit timestamp newer than
`now - MAX_ENTRY_AGE` is never removed by the sweep.  The code computes
`blockedUntil || 0`, so for any unblocked record the minimum is `0` and
`now - 0 > MAX_ENTRY_AGE` holds for every `now > 300000`: at
`now = 400000` a record whose only hit is `1` millisecond old is
deleted, contradicting both the claim and the code's own comment
(remove entries older than `MAX_ENTRY_AGE`). -/
theorem cleanup_deletes_record_with_fresh_hit :
    ((400000 : Int) - 399999 ≤ MAX_ENTRY_AGE) ∧
    oldestEntryTimestamp 400000 ⟨[399999], [399999], none⟩ = 0 ∧
    cleanupOldEntries 400000 [("1.2.3.4", ⟨[399999], [399999], none⟩)]
      = [] := by decide

/-- Claim C5, counterexample.  In the spec's concrete scenario
(`maxPerShortWindow = 2`, `shortWindowDuration = 60s`,
`blockDuration = 600s`; times in milliseconds) the block set at `t = 2s`
lasts until `t = 602s`, so at `t = 601s` the fifth check still returns
`Denied(AlreadyBlocked)`, not the `Allowed(remaining = 1)` the claim
states. -/
theorem scenario_fifth_check_at_601_still_blocked :
    (runChecks scenarioConfig "A" [0, 1000, 2000, 3000, 601000] []).1 =
      [⟨true, 1, 60000, none⟩,
       ⟨true, 0, 61000, none⟩,
       ⟨false, 0, 602000, some Reason.ShortWindowExceeded⟩,
       ⟨false, 0, 602000, some Reason.AlreadyBlocked⟩,
       ⟨false, 0, 602000, some Reason.AlreadyBlocked⟩] := by decide

/-- Claim C5 as amended: same scenario, with the final check at
`t = 602s` (the first instant at which `now ≥ blockedUntil`).  The
first two checks are allowed with `remaining` 1 and 0, the third is
denied with `ShortWindowExceeded` and `resetAt = 602s` (so
`retryAfter = 600s`), the fourth is denied with `AlreadyBlocked`, and
at `t = 602s` the block has expired and the short window is empty (the
long window still holds the two old hits, which is why `remaining` is
`min(2 - 1, 60 - 3) = 1`), so the check returns
`Allowed(remaining = 1)`. -/
theorem scenario_trace_with_final_check_at_602 :
    (runChecks scenarioConfig "A" [0, 1000, 2000, 3000, 602000] []).1 =
      [⟨true, 1, 60000, none⟩,
       ⟨true, 0, 61000, none⟩,
       ⟨false, 0, 602000, some Reason.ShortWindowExceeded⟩,
       ⟨false, 0, 602000, some Reason.AlreadyBlocked⟩,
       ⟨true, 1, 662000, none⟩] ∧
    Store.get (runChecks scenarioConfig "A" [0, 1000, 2000, 3000, 602000]
        []).2 "A" =
      some ⟨[602000], [0, 1000, 602000], none⟩ := by decide

/-- Claim C4, counterexample.  JS evaluates `minuteTimestamps[0] || now`
and the number `0` is falsy, so after two checks at `t = 0` and
`t = 1000` the post-append oldest entry `0` is replaced by `now = 1000`
and the decision carries `resetAt = 61000`, while the spec's formula
over the post-append oldest entries gives
`min(0 + 60000, 0 + 3600000) = 60000`. -/
theorem allowed_resetAt_differs_from_spec_formula_at_zero :
    ((runChecks defaultRateLimitConfig "A" [0, 1000] []).1.map
      Decision.resetAt) = [60000, 61000] ∧
    (Store.get (runChecks defaultRateLimitConfig "A" [0, 1000] []).2
        "A").map
      (fun r => specResetAt defaultRateLimitConfig 1000
        r.minuteTimestamps r.hourTimestamps) = some 60000 ∧
    (61000 : Int) ≠ 60000 := by decide

theorem pruneTimestamps_sublist (window now : Int) (ts : List Int) :
    (pruneTimestamps window now ts).Sublist ts :=
  List.filter_sublist ts

theorem mem_pruneTimestamps (window now t : Int) (ts : List Int)
    (h : t ∈ pruneTimestamps window now ts) : now - t < window := by
  have hp := List.of_mem_filter h
  exact of_decide_eq_true hp

/-- Claim C6 (Pruning invariant).  First conjunct: every timestamp kept
by the prune step of `checkRateLimit` (definition `pruneTimestamps`,
applied to each hit sequence with its own window) is strictly newer than
`now` minus that window.  Second conjunct: the only other code touching
the map, the sweep `cleanupOldEntries`, never modifies a surviving
record — its output is a sublist of its input, so hit sequences are
pruned only inside a check. -/
theorem prune_invariant_and_sweep_never_prunes :
    (∀ (window now t : Int) (ts : List Int),
        t ∈ pruneTimestamps window now ts → now - t < window) ∧
    (∀ (now : Int) (store : Store),
        (cleanupOldEntries now store).Sublist store) :=
  ⟨fun window now t ts h => mem_pruneTimestamps window now t ts h,
   fun _ store => List.filter_sublist store⟩

/-- Claim C3 (Block persistence).  While `now < blockedUntil` every
check is denied with reason `AlreadyBlocked`, `resetAt` equal to the
unchanged `blockedUntil`, `allowed = false`, and the record left in the
map unchanged; the first check with `now ≥ blockedUntil` clears the
block and behaves exactly as `checkUnblocked` (the window re-evaluation)
on the record with `blockedUntil` cleared. -/
theorem block_persistence (cfg : RateLimitConfig) (now : Int) (ip : String)
    (store : Store) (data : RecordData) (b : Int)
    (hget : Store.get store ip = some data)
    (hb : data.blockedUntil = some b) :
    (now < b →
      (checkRateLimit cfg now ip store).1 =
        ⟨false, 0, b, some Reason.AlreadyBlocked⟩ ∧
      Store.get (checkRateLimit cfg now ip store).2 ip = some data) ∧
    (b ≤ now →
      checkRateLimit cfg now ip store =
        ((checkUnblocked cfg now { data with blockedUntil := none }).1,
         Store.set store ip
           (checkUnblocked cfg now
             { data with blockedUntil := none }).2)) := by
  constructor
  · intro hlt
    simp only [checkRateLimit, hget, Option.getD_some, hb, if_pos hlt]
    exact ⟨trivial, Store.get_set_self store ip data⟩
  · intro hge
    simp only [checkRateLimit, hget, Option.getD_some, hb,
      if_neg (not_lt.mpr hge)]

/-- Witness for claim C3 at a concrete input: identity "A" blocked
until `602000`, checked at `now = 3000`. -/
theorem block_persistence_witness :
    ((3000 : Int) < 602000 →
      (checkRateLimit scenarioConfig 3000 "A"
          [("A", ⟨[0, 1000], [0, 1000], some 602000⟩)]).1 =
        ⟨false, 0, 602000, some Reason.AlreadyBlocked⟩ ∧
      Store.get (checkRateLimit scenarioConfig 3000 "A"
          [("A", ⟨[0, 1000], [0, 1000], some 602000⟩)]).2 "A" =
        some ⟨[0, 1000], [0, 1000], some 602000⟩) ∧
    ((602000 : Int) ≤ 3000 →
      checkRateLimit scenarioConfig 3000 "A"
          [("A", ⟨[0, 1000], [0, 1000], some 602000⟩)] =
        ((checkUnblocked scenarioConfig 3000
            { (⟨[0, 1000], [0, 1000], some 602000⟩ : RecordData) with
                blockedUntil := none }).1,
         Store.set [("A", ⟨[0, 1000], [0, 1000], some 602000⟩)] "A"
           (checkUnblocked scenarioConfig 3000
             { (⟨[0, 1000], [0, 1000], some 602000⟩ : RecordData) with
                 blockedUntil := none }).2)) :=
  block_persistence scenarioConfig 3000 "A"
    [("A", ⟨[0, 1000], [0, 1000], some 602000⟩)]
    ⟨[0, 1000], [0, 1000], some 602000⟩ 602000 (by decide) (by decide)

theorem checkUnblocked_wellformed (cfg : RateLimitConfig) (now : Int)
    (data : RecordData) :
    0 ≤ (checkUnblocked cfg now data).1.remaining ∧
    ((checkUnblocked cfg now data).1.allowed = false ↔
      ((checkUnblocked cfg now data).1.reason).isSome = true) := by
  by_cases h1 : cfg.MAX_REQUESTS_PER_MINUTE ≤
      (pruneTimestamps cfg.MINUTE_WINDOW now data.minuteTimestamps).length
  · simp [checkUnblocked, h1]
  · by_cases h2 : cfg.MAX_REQUESTS_PER_HOUR ≤
        (pruneTimestamps cfg.HOUR_WINDOW now data.hourTimestamps).length
    · simp [checkUnblocked, h1, h2]
    · simp only [checkUnblocked, if_neg h1, if_neg h2]
      refine ⟨le_min ?_ ?_, by simp⟩ <;>
        · simp only [List.length_append, List.length_cons,
            List.length_nil]
          omega

/-- Claim C9 (Totality of Check).  For every configuration, time,
identity string (including the empty string and the sentinel "unknown",
which are ordinary values of the identity type) and map state,
`checkRateLimit` is a total function (it is defined without any
partiality), and the decision it returns is well formed: `remaining` is
never negative, and the decision carries a denial reason exactly when
`allowed` is false — denial is the only failure it can express. -/
theorem check_total_and_wellformed (cfg : RateLimitConfig) (now : Int)
    (ip : String) (store : Store) :
    0 ≤ (checkRateLimit cfg now ip store).1.remaining ∧
    ((checkRateLimit cfg now ip store).1.allowed = false ↔
      ((checkRateLimit cfg now ip store).1.reason).isSome = true) := by
  simp only [checkRateLimit]
  split
  · split
    · simp
    · exact checkUnblocked_wellformed cfg now _
  · exact checkUnblocked_wellformed cfg now _

theorem checkUnblocked_denied_frame (cfg : RateLimitConfig) (now : Int)
    (data : RecordData)
    (hdeny : (checkUnblocked cfg now data).1.allowed = false) :
    (checkUnblocked cfg now data).2.minuteTimestamps.Sublist
      data.minuteTimestamps ∧
    (checkUnblocked cfg now data).2.hourTimestamps.Sublist
      data.hourTimestamps ∧
    (checkUnblocked cfg now data).1.reason ≠ some Reason.AlreadyBlocked := by
  by_cases h1 : cfg.MAX_REQUESTS_PER_MINUTE ≤
      (pruneTimestamps cfg.MINUTE_WINDOW now data.minuteTimestamps).length
  · simp only [checkUnblocked, if_pos h1]
    exact ⟨List.filter_sublist _, List.filter_sublist _, by simp⟩
  · by_cases h2 : cfg.MAX_REQUESTS_PER_HOUR ≤
        (pruneTimestamps cfg.HOUR_WINDOW now data.hourTimestamps).length
    · simp only [checkUnblocked, if_neg h1, if_pos h2]
      exact ⟨List.filter_sublist _, List.filter_sublist _, by simp⟩
    · exact absurd hdeny (by simp [checkUnblocked, if_neg h1, if_neg h2])

/-- Claim C7 (Denial frame).  Every denied check leaves in the map a
record whose hit sequences are sublists of the sequences it started
from — the denied request's `now` is never recorded as a hit — and in
the `AlreadyBlocked` case the record is returned to the map completely
unchanged, not even pruned. -/
theorem denied_request_not_recorded (cfg : RateLimitConfig) (now : Int)
    (ip : String) (store : Store)
    (hdeny : (checkRateLimit cfg now ip store).1.allowed = false) :
    ∃ r, Store.get (checkRateLimit cfg now ip store).2 ip = some r ∧
      r.minuteTimestamps.Sublist
        ((Store.get store ip).getD emptyRecord).minuteTimestamps ∧
      r.hourTimestamps.Sublist
        ((Store.get store ip).getD emptyRecord).hourTimestamps ∧
      ((checkRateLimit cfg now ip store).1.reason =
          some Reason.AlreadyBlocked →
        r = (Store.get store ip).getD emptyRecord) := by
  rcases hb : ((Store.get store ip).getD emptyRecord).blockedUntil with _ | b
  · simp only [checkRateLimit, hb] at hdeny ⊢
    have hframe := checkUnblocked_denied_frame cfg now
      ((Store.get store ip).getD emptyRecord) hdeny
    exact ⟨_, Store.get_set_self store ip _, hframe.1, hframe.2.1,
      fun hreason => absurd hreason hframe.2.2⟩
  · by_cases hlt : now < b
    · simp only [checkRateLimit, hb, if_pos hlt] at hdeny ⊢
      exact ⟨(Store.get store ip).getD emptyRecord,
        Store.get_set_self store ip _, List.Sublist.refl _,
        List.Sublist.refl _, fun _ => rfl⟩
    · simp only [checkRateLimit, hb, if_neg hlt] at hdeny ⊢
      have hframe := checkUnblocked_denied_frame cfg now
        { (Store.get store ip).getD emptyRecord with blockedUntil := none }
        hdeny
      exact ⟨_, Store.get_set_self store ip _, hframe.1, hframe.2.1,
        fun hreason => absurd hreason hframe.2.2⟩

/-- Witness for claim C7 at a concrete input: a blocked identity
checked while the block is active. -/
theorem denied_request_not_recorded_witness :
    ∃ r, Store.get (checkRateLimit scenarioConfig 3000 "A"
        [("A", ⟨[0, 1000], [0, 1000], some 602000⟩)]).2 "A" = some r ∧
      r.minuteTimestamps.Sublist
        ((Store.get [("A", ⟨[0, 1000], [0, 1000], some 602000⟩)]
            "A").getD emptyRecord).minuteTimestamps ∧
      r.hourTimestamps.Sublist
        ((Store.get [("A", ⟨[0, 1000], [0, 1000], some 602000⟩)]
            "A").getD emptyRecord).hourTimestamps ∧
      ((checkRateLimit scenarioConfig 3000 "A"
          [("A", ⟨[0, 1000], [0, 1000], some 602000⟩)]).1.reason =
          some Reason.AlreadyBlocked →
        r = (Store.get [("A", ⟨[0, 1000], [0, 1000], some 602000⟩)]
            "A").getD emptyRecord) :=
  denied_request_not_recorded scenarioConfig 3000 "A"
    [("A", ⟨[0, 1000], [0, 1000], some 602000⟩)] (by decide)

theorem checkRateLimit_frame_other (cfg : RateLimitConfig) (now : Int)
    (ip ip' : String) (store : Store) (h : ip ≠ ip') :
    Store.get (checkRateLimit cfg now ip store).2 ip' =
      Store.get store ip' := by
  rcases hb : ((Store.get store ip).getD emptyRecord).blockedUntil with _ | b
  · simp only [checkRateLimit, hb]
    exact Store.get_set_ne store ip ip' _ h
  · by_cases hlt : now < b
    · simp only [checkRateLimit, hb, if_pos hlt]
      exact Store.get_set_ne store ip ip' _ h
    · simp only [checkRateLimit, hb, if_neg hlt]
      exact Store.get_set_ne store ip ip' _ h

theorem checkRateLimit_decision_congr (cfg : RateLimitConfig) (now : Int)
    (ip : String) (st1 st2 : Store)
    (h : Store.get st1 ip = Store.get st2 ip) :
    (checkRateLimit cfg now ip st1).1 =
      (checkRateLimit cfg now ip st2).1 := by
  rcases hb : ((Store.get st2 ip).getD emptyRecord).blockedUntil with _ | b
  · simp only [checkRateLimit, h, hb]
  · simp only [checkRateLimit, h, hb]
    split_ifs <;> rfl

theorem runChecks_frame_other (cfg : RateLimitConfig) (ipA ipB : String)
    (h : ipA ≠ ipB) (times : List Int) (store : Store) :
    Store.get (runChecks cfg ipA times store).2 ipB =
      Store.get store ipB := by
  induction times generalizing store with
  | nil => rfl
  | cons t ts ih =>
      simp only [runChecks]
      rw [ih, checkRateLimit_frame_other cfg t ipA ipB store h]

/-- Claim C8 (Independence across identities).  Any sequence of checks
for identity A — including ones that exhaust A's short window and block
A — leaves B's record in the map unchanged, and a subsequent check for
B returns exactly the decision it would have returned on the original
map. -/
theorem independence_across_identities (cfg : RateLimitConfig)
    (ipA ipB : String) (h : ipA ≠ ipB) (times : List Int) (store : Store)
    (now : Int) :
    Store.get (runChecks cfg ipA times store).2 ipB =
      Store.get store ipB ∧
    (checkRateLimit cfg now ipB (runChecks cfg ipA times store).2).1 =
      (checkRateLimit cfg now ipB store).1 :=
  ⟨runChecks_frame_other cfg ipA ipB h times store,
   checkRateLimit_decision_congr cfg now ipB _ store
     (runChecks_frame_other cfg ipA ipB h times store)⟩

/-- Witness for claim C8 at a concrete input: identity "A" exhausts its
short window and is blocked; identity "B" is unaffected. -/
theorem independence_across_identities_witness :
    Store.get (runChecks scenarioConfig "A" [0, 1000, 2000, 3000] []).2
        "B" = Store.get [] "B" ∧
    (checkRateLimit scenarioConfig 4000 "B"
        (runChecks scenarioConfig "A" [0, 1000, 2000, 3000] []).2).1 =
      (checkRateLimit scenarioConfig 4000 "B" []).1 :=
  independence_across_identities scenarioConfig "A" "B" (by decide)
    [0, 1000, 2000, 3000] [] 4000

theorem checkUnblocked_allowed_eq (cfg : RateLimitConfig) (now : Int)
    (data : RecordData)
    (hallow : (checkUnblocked cfg now data).1.allowed = true) :
    checkUnblocked cfg now data =
      (⟨true,
        min ((cfg.MAX_REQUESTS_PER_MINUTE : Int) -
              (pruneTimestamps cfg.MINUTE_WINDOW now
                  data.minuteTimestamps ++ [now]).length)
            ((cfg.MAX_REQUESTS_PER_HOUR : Int) -
              (pruneTimestamps cfg.HOUR_WINDOW now
                  data.hourTimestamps ++ [now]).length),
        min (jsOrNow (pruneTimestamps cfg.MINUTE_WINDOW now
                data.minuteTimestamps ++ [now]).head? now +
              cfg.MINUTE_WINDOW)
            (jsOrNow (pruneTimestamps cfg.HOUR_WINDOW now
                data.hourTimestamps ++ [now]).head? now +
              cfg.HOUR_WINDOW),
        none⟩,
       ⟨pruneTimestamps cfg.MINUTE_WINDOW now data.minuteTimestamps ++
          [now],
        pruneTimestamps cfg.HOUR_WINDOW now data.hourTimestamps ++ [now],
        none⟩) := by
  by_cases h1 : cfg.MAX_REQUESTS_PER_MINUTE ≤
      (pruneTimestamps cfg.MINUTE_WINDOW now data.minuteTimestamps).length
  · exact absurd hallow (by simp [checkUnblocked, h1])
  · by_cases h2 : cfg.MAX_REQUESTS_PER_HOUR ≤
        (pruneTimestamps cfg.HOUR_WINDOW now data.hourTimestamps).length
    · exact absurd hallow (by simp [checkUnblocked, h1, h2])
    · simp only [checkUnblocked, if_neg h1, if_neg h2]

/-- Claim C4 as amended (Allowed-decision contract).  For every check
that returns Allowed, the record left in the map holds the post-append
sequences (the pruned sequences with `now` appended to each), the
decision's `remaining` equals
`min(maxPerShortWindow - len(shortWindowHits),
maxPerLongWindow - len(longWindowHits))` on those post-append
sequences, and `resetAt` equals
`min(oldestShort + shortWindowDuration, oldestLong + longWindowDuration)`
over the post-append oldest entries — except that an oldest entry equal
to the timestamp `0` is treated like a missing entry (JS falsiness of
`timestamps[0] || now`) and `now` is used in its place. -/
theorem allowed_decision_contract (cfg : RateLimitConfig) (now : Int)
    (ip : String) (store : Store)
    (hallow : (checkRateLimit cfg now ip store).1.allowed = true) :
    ∃ r, Store.get (checkRateLimit cfg now ip store).2 ip = some r ∧
      r.minuteTimestamps =
        pruneTimestamps cfg.MINUTE_WINDOW now
          ((Store.get store ip).getD emptyRecord).minuteTimestamps ++
          [now] ∧
      r.hourTimestamps =
        pruneTimestamps cfg.HOUR_WINDOW now
          ((Store.get store ip).getD emptyRecord).hourTimestamps ++
          [now] ∧
      (checkRateLimit cfg now ip store).1.remaining =
        min ((cfg.MAX_REQUESTS_PER_MINUTE : Int) -
              r.minuteTimestamps.length)
            ((cfg.MAX_REQUESTS_PER_HOUR : Int) -
              r.hourTimestamps.length) ∧
      (checkRateLimit cfg now ip store).1.resetAt =
        min (jsOrNow r.minuteTimestamps.head? now + cfg.MINUTE_WINDOW)
            (jsOrNow r.hourTimestamps.head? now + cfg.HOUR_WINDOW) := by
  rcases hb : ((Store.get store ip).getD emptyRecord).blockedUntil with _ | b
  · simp only [checkRateLimit, hb] at hallow ⊢
    rw [checkUnblocked_allowed_eq cfg now _ hallow]
    exact ⟨_, Store.get_set_self store ip _, rfl, rfl, rfl, rfl⟩
  · by_cases hlt : now < b
    · simp only [checkRateLimit, hb, if_pos hlt] at hallow
      exact absurd hallow (by simp)
    · simp only [checkRateLimit, hb, if_neg hlt] at hallow ⊢
      rw [checkUnblocked_allowed_eq cfg now _ hallow]
      exact ⟨_, Store.get_set_self store ip _, rfl, rfl, rfl, rfl⟩

/-- Witness for claim C4 at a concrete input: a fresh identity checked
at `now = 5000`. -/
theorem allowed_decision_contract_witness :
    ∃ r, Store.get (checkRateLimit scenarioConfig 5000 "A" []).2 "A" =
        some r ∧
      r.minuteTimestamps =
        pruneTimestamps scenarioConfig.MINUTE_WINDOW 5000
          ((Store.get [] "A").getD emptyRecord).minuteTimestamps ++
          [5000] ∧
      r.hourTimestamps =
        pruneTimestamps scenarioConfig.HOUR_WINDOW 5000
          ((Store.get [] "A").getD emptyRecord).hourTimestamps ++
          [5000] ∧
      (checkRateLimit scenarioConfig 5000 "A" []).1.remaining =
        min ((scenarioConfig.MAX_REQUESTS_PER_MINUTE : Int) -
              r.minuteTimestamps.length)
            ((scenarioConfig.MAX_REQUESTS_PER_HOUR : Int) -
              r.hourTimestamps.length) ∧
      (checkRateLimit scenarioConfig 5000 "A" []).1.resetAt =
        min (jsOrNow r.minuteTimestamps.head? 5000 +
              scenarioConfig.MINUTE_WINDOW)
            (jsOrNow r.hourTimestamps.head? 5000 +
              scenarioConfig.HOUR_WINDOW) :=
  allowed_decision_contract scenarioConfig 5000 "A" [] (by decide)

theorem pruneTimestamps_eq_self (window now : Int) (ts : List Int)
    (h : ∀ t ∈ ts, now - t < window) :
    pruneTimestamps window now ts = ts :=
  List.filter_eq_self.mpr fun t ht => decide_eq_true (h t ht)

theorem pruneTimestamps_length_le (window now : Int) (ts : List Int) :
    (pruneTimestamps window now ts).length ≤ ts.length :=
  (List.filter_sublist ts).length_le

theorem checkRateLimit_unblocked_eq (cfg : RateLimitConfig) (now : Int)
    (ip : String) (store : Store) (m h : List Int)
    (hrec : (Store.get store ip).getD emptyRecord = ⟨m, h, none⟩) :
    checkRateLimit cfg now ip store =
      ((checkUnblocked cfg now ⟨m, h, none⟩).1,
       Store.set store ip (checkUnblocked cfg now ⟨m, h, none⟩).2) := by
  simp only [checkRateLimit, hrec]

theorem runChecks_length (cfg : RateLimitConfig) (ip : String) :
    ∀ (ts : List Int) (st : Store),
      (runChecks cfg ip ts st).1.length = ts.length := by
  intro ts
  induction ts with
  | nil => intro st; rfl
  | cons t ts ih => intro st; simp [runChecks, ih]

theorem runChecks_append (cfg : RateLimitConfig) (ip : String)
    (as bs : List Int) (st : Store) :
    runChecks cfg ip (as ++ bs) st =
      ((runChecks cfg ip as st).1 ++
         (runChecks cfg ip bs (runChecks cfg ip as st).2).1,
       (runChecks cfg ip bs (runChecks cfg ip as st).2).2) := by
  induction as generalizing st with
  | nil => simp [runChecks]
  | cons a as ih => simp [runChecks, ih]

/-- Inductive core for claim C2: starting from an unblocked record
holding `m` short-window hits (all inside one short window together
with the coming call times `ts`) and at most `m.length` long-window
hits, a run of `ts` further checks with `m.length + ts.length` still
within the short-window cap is allowed throughout, and afterwards the
short-window sequence is exactly `m ++ ts`. -/
theorem runChecks_all_allowed (cfg : RateLimitConfig) (ip : String)
    (hcap : cfg.MAX_REQUESTS_PER_MINUTE ≤ cfg.MAX_REQUESTS_PER_HOUR) :
    ∀ (ts : List Int) (st : Store) (m h : List Int),
      (Store.get st ip).getD emptyRecord = ⟨m, h, none⟩ →
      h.length ≤ m.length →
      m.length + ts.length ≤ cfg.MAX_REQUESTS_PER_MINUTE →
      (∀ s, (s ∈ m ∨ s ∈ ts) → ∀ t ∈ ts, t - s < cfg.MINUTE_WINDOW) →
      (∀ d ∈ (runChecks cfg ip ts st).1, d.allowed = true) ∧
      ∃ h', (Store.get (runChecks cfg ip ts st).2 ip).getD emptyRecord =
              ⟨m ++ ts, h', none⟩ ∧
            h'.length ≤ m.length + ts.length := by
  intro ts
  induction ts with
  | nil =>
      intro st m h hrec hlen hcount _
      exact ⟨by simp [runChecks], h, by simpa using hrec,
        by simpa using hlen⟩
  | cons t ts ih =>
      intro st m h hrec hlen hcount hwin
      have hmprune : pruneTimestamps cfg.MINUTE_WINDOW t m = m :=
        pruneTimestamps_eq_self _ _ _ fun s hs =>
          hwin s (Or.inl hs) t (List.mem_cons_self t ts)
      have h1 : ¬ cfg.MAX_REQUESTS_PER_MINUTE ≤ m.length := by
        simp only [List.length_cons] at hcount
        omega
      have h2 : ¬ cfg.MAX_REQUESTS_PER_HOUR ≤
          (pruneTimestamps cfg.HOUR_WINDOW t h).length := by
        have hh := pruneTimestamps_length_le cfg.HOUR_WINDOW t h
        simp only [List.length_cons] at hcount
        omega
      have hu1 : (checkUnblocked cfg t ⟨m, h, none⟩).1.allowed = true := by
        simp only [checkUnblocked, hmprune, if_neg h1, if_neg h2]
      have hu2 : (checkUnblocked cfg t ⟨m, h, none⟩).2 =
          ⟨m ++ [t], pruneTimestamps cfg.HOUR_WINDOW t h ++ [t], none⟩ := by
        simp only [checkUnblocked, hmprune, if_neg h1, if_neg h2]
      have hstep := checkRateLimit_unblocked_eq cfg t ip st m h hrec
      have hrec' : (Store.get (checkRateLimit cfg t ip st).2 ip).getD
          emptyRecord =
          ⟨m ++ [t], pruneTimestamps cfg.HOUR_WINDOW t h ++ [t], none⟩ := by
        rw [hstep]
        simp only [Store.get_set_self, Option.getD_some, hu2]
      have hih := ih (checkRateLimit cfg t ip st).2 (m ++ [t])
        (pruneTimestamps cfg.HOUR_WINDOW t h ++ [t]) hrec'
        (by
          have hh := pruneTimestamps_length_le cfg.HOUR_WINDOW t h
          simp only [List.length_append, List.length_cons, List.length_nil]
          omega)
        (by
          simp only [List.length_append, List.length_cons,
            List.length_nil] at hcount ⊢
          omega)
        (by
          intro s hs t' ht'
          refine hwin s ?_ t' (List.mem_cons_of_mem t ht')
          rcases hs with hs | hs
          · rcases List.mem_append.mp hs with hs | hs
            · exact Or.inl hs
            · simp only [List.mem_singleton] at hs
              exact Or.inr (hs ▸ List.mem_cons_self t ts)
          · exact Or.inr (List.mem_cons_of_mem t hs))
      refine ⟨?_, ?_⟩
      · intro d hd
        simp only [runChecks, List.mem_cons] at hd
        rcases hd with hd | hd
        · rw [hd, hstep]
          exact hu1
        · exact hih.1 d hd
      · obtain ⟨h', hrec'', hlen'⟩ := hih.2
        refine ⟨h', ?_, ?_⟩
        · simpa only [runChecks, List.append_assoc, List.singleton_append]
            using hrec''
        · simp only [List.length_append, List.length_cons,
            List.length_nil] at hlen' ⊢
          omega

/-- Claim C2 (Threshold exactness).  For a fresh identity with
`maxPerShortWindow = N` (`1 ≤ N ≤ maxPerLongWindow`) and `N + 1` check
calls all within one short window of each other, the first `N` checks
return Allowed and the `(N+1)`-th returns Denied with reason
`ShortWindowExceeded`. -/
theorem threshold_exactness (cfg : RateLimitConfig) (ip : String) (N : Nat)
    (hN : 1 ≤ N) (hmax : cfg.MAX_REQUESTS_PER_MINUTE = N)
    (hcap : N ≤ cfg.MAX_REQUESTS_PER_HOUR)
    (times : List Int) (hlen : times.length = N + 1)
    (hwin : ∀ s ∈ times, ∀ t ∈ times, t - s < cfg.MINUTE_WINDOW)
    (store : Store) (hfresh : Store.get store ip = none) :
    ∃ ds dlast, (runChecks cfg ip times store).1 = ds ++ [dlast] ∧
      ds.length = N ∧ (∀ d ∈ ds, d.allowed = true) ∧
      dlast.allowed = false ∧
      dlast.reason = some Reason.ShortWindowExceeded := by
  have hne : times ≠ [] := by
    intro hcontra
    rw [hcontra] at hlen
    simp at hlen
  have hsplit := List.dropLast_append_getLast hne
  have hlen0 : times.dropLast.length = N := by
    rw [List.length_dropLast, hlen]
    omega
  have hmemdl : ∀ s ∈ times.dropLast, s ∈ times := fun s hs =>
    (List.dropLast_sublist times).subset hs
  have hlast_mem : times.getLast hne ∈ times := List.getLast_mem hne
  have hmain := runChecks_all_allowed cfg ip (hmax ▸ hcap) times.dropLast
    store [] [] (by rw [hfresh]; rfl) (Nat.le_refl 0)
    (by simp [hlen0, hmax])
    (by
      intro s hs t ht
      rcases hs with hs | hs
      · exact absurd hs (List.not_mem_nil s)
      · exact hwin s (hmemdl s hs) t (hmemdl t ht))
  obtain ⟨hds, h', hrec', hlen'⟩ := hmain
  have hrec'' : (Store.get (runChecks cfg ip times.dropLast store).2
      ip).getD emptyRecord = ⟨times.dropLast, h', none⟩ := by
    simpa using hrec'
  set tN := times.getLast hne with htN
  have hmN : pruneTimestamps cfg.MINUTE_WINDOW tN times.dropLast =
      times.dropLast :=
    pruneTimestamps_eq_self _ _ _ fun s hs =>
      hwin s (hmemdl s hs) tN hlast_mem
  have hexceed : cfg.MAX_REQUESTS_PER_MINUTE ≤
      (pruneTimestamps cfg.MINUTE_WINDOW tN times.dropLast).length := by
    rw [hmN, hlen0, hmax]
  have hlaststep := checkRateLimit_unblocked_eq cfg tN ip
    (runChecks cfg ip times.dropLast store).2 times.dropLast h' hrec''
  have hlastdec : (checkUnblocked cfg tN
      (⟨times.dropLast, h', none⟩ : RecordData)).1 =
      ⟨false, 0, tN + cfg.BLOCK_DURATION,
        some Reason.ShortWindowExceeded⟩ := by
    simp only [checkUnblocked, if_pos hexceed]
  refine ⟨(runChecks cfg ip times.dropLast store).1,
    ⟨false, 0, tN + cfg.BLOCK_DURATION,
      some Reason.ShortWindowExceeded⟩, ?_, ?_, hds, rfl, rfl⟩
  · conv_lhs => rw [← hsplit]
    rw [runChecks_append]
    simp only [runChecks]
    rw [hlaststep]
    simp only [hlastdec]
  · rw [runChecks_length, hlen0]

/-- Witness for claim C2 at a concrete input: `N = 2`, a fresh identity
checked three times inside one short window. -/
theorem threshold_exactness_witness :
    ∃ ds dlast,
      (runChecks scenarioConfig "A" [0, 1000, 2000] []).1 =
        ds ++ [dlast] ∧
      ds.length = 2 ∧ (∀ d ∈ ds, d.allowed = true) ∧
      dlast.allowed = false ∧
      dlast.reason = some Reason.ShortWindowExceeded :=
  threshold_exactness scenarioConfig "A" 2 (by decide) (by decide)
    (by decide) [0, 1000, 2000] (by decide) (by decide) [] (by decide)

theorem pruneTimestamps_suffix_of_sorted (window now : Int) :
    ∀ l : List Int, l.Pairwise (· ≤ ·) →
      (pruneTimestamps window now l).IsSuffix l := by
  intro l
  induction l with
  | nil => intro _; simp [pruneTimestamps]
  | cons a tl ih =>
      intro hp
      rcases List.pairwise_cons.mp hp with ⟨ha, htl⟩
      by_cases hpa : now - a < window
      · rw [pruneTimestamps_eq_self window now (a :: tl) ?_]
        · intro t ht
          rcases List.mem_cons.mp ht with h | h
          · rw [h]; exact hpa
          · have := ha t h
            omega
      · have hdrop : pruneTimestamps window now (a :: tl) =
            pruneTimestamps window now tl := by
          simp [pruneTimestamps, List.filter_cons, hpa]
        rw [hdrop]
        exact (ih htl).trans (List.suffix_cons a tl)

theorem pruneTimestamps_mono_suffix (now W1 W2 : Int) (hW : W1 ≤ W2)
    (m hl : List Int) (hsuf : m.IsSuffix hl)
    (hsort : hl.Pairwise (· ≤ ·)) :
    (pruneTimestamps W1 now m).IsSuffix (pruneTimestamps W2 now hl) := by
  obtain ⟨u, rfl⟩ := hsuf
  have hmsort : m.Pairwise (· ≤ ·) := (List.pairwise_append.mp hsort).2.1
  have hinner : pruneTimestamps W1 now (pruneTimestamps W2 now m) =
      pruneTimestamps W1 now m := by
    unfold pruneTimestamps
    rw [List.filter_filter]
    refine List.filter_congr fun a _ => ?_
    by_cases h1 : now - a < W1
    · have h2 : now - a < W2 := by omega
      simp [h1, h2]
    · simp [h1]
  have hstep1 : (pruneTimestamps W1 now m).IsSuffix
      (pruneTimestamps W2 now m) := by
    rw [← hinner]
    exact pruneTimestamps_suffix_of_sorted W1 now _ (hmsort.filter _)
  have hstep2 : (pruneTimestamps W2 now m).IsSuffix
      (pruneTimestamps W2 now (u ++ m)) := by
    unfold pruneTimestamps
    rw [List.filter_append]
    exact List.suffix_append _ _
  exact hstep1.trans hstep2

theorem suffix_append_singleton {m hl : List Int} (x : Int)
    (hsuf : m.IsSuffix hl) : (m ++ [x]).IsSuffix (hl ++ [x]) := by
  obtain ⟨u, rfl⟩ := hsuf
  exact ⟨u, (List.append_assoc u m [x]).symm⟩

/-- The per-record invariant behind claim C10: the short-window hits
are a suffix of the long-window hits, the long-window hits are sorted
ascending, and every recorded hit is no later than the current clock
value `now`. -/
def RecordInv (now : Int) (r : RecordData) : Prop :=
  r.minuteTimestamps.IsSuffix r.hourTimestamps ∧
  r.hourTimestamps.Pairwise (· ≤ ·) ∧
  ∀ t ∈ r.hourTimestamps, t ≤ now

/-- The store-wide form of `RecordInv`. -/
def StoreInv (now : Int) (st : Store) : Prop :=
  ∀ ip r, Store.get st ip = some r → RecordInv now r

theorem RecordInv.mono {now now' : Int} {r : RecordData}
    (hle : now ≤ now') (h : RecordInv now r) : RecordInv now' r :=
  ⟨h.1, h.2.1, fun t ht => le_trans (h.2.2 t ht) hle⟩

theorem recordInv_emptyRecord (now : Int) : RecordInv now emptyRecord :=
  ⟨List.nil_suffix, List.Pairwise.nil, by simp [emptyRecord]⟩

theorem checkUnblocked_recordInv (cfg : RateLimitConfig) (now : Int)
    (data : RecordData) (hW : cfg.MINUTE_WINDOW ≤ cfg.HOUR_WINDOW)
    (hinv : RecordInv now data) :
    RecordInv now (checkUnblocked cfg now data).2 := by
  have hsuf : (pruneTimestamps cfg.MINUTE_WINDOW now
      data.minuteTimestamps).IsSuffix
      (pruneTimestamps cfg.HOUR_WINDOW now data.hourTimestamps) :=
    pruneTimestamps_mono_suffix now _ _ hW _ _ hinv.1 hinv.2.1
  have hsort : (pruneTimestamps cfg.HOUR_WINDOW now
      data.hourTimestamps).Pairwise (· ≤ ·) := hinv.2.1.filter _
  have hbound : ∀ t ∈ pruneTimestamps cfg.HOUR_WINDOW now
      data.hourTimestamps, t ≤ now := fun t ht =>
    hinv.2.2 t ((List.filter_sublist _).subset ht)
  by_cases h1 : cfg.MAX_REQUESTS_PER_MINUTE ≤
      (pruneTimestamps cfg.MINUTE_WINDOW now data.minuteTimestamps).length
  · simp only [checkUnblocked, if_pos h1]
    exact ⟨hsuf, hsort, hbound⟩
  · by_cases h2 : cfg.MAX_REQUESTS_PER_HOUR ≤
        (pruneTimestamps cfg.HOUR_WINDOW now data.hourTimestamps).length
    · simp only [checkUnblocked, if_neg h1, if_pos h2]
      exact ⟨hsuf, hsort, hbound⟩
    · simp only [checkUnblocked, if_neg h1, if_neg h2]
      refine ⟨suffix_append_singleton now hsuf, ?_, ?_⟩
      · rw [List.pairwise_append]
        exact ⟨hsort, List.pairwise_singleton _ _,
          fun a ha b hb => by
            rw [List.mem_singleton.mp hb]
            exact hbound a ha⟩
      · intro t ht
        rcases List.mem_append.mp ht with h | h
        · exact hbound t h
        · rw [List.mem_singleton.mp h]

theorem checkRateLimit_storeInv (cfg : RateLimitConfig) (now : Int)
    (ip : String) (st : Store) (hW : cfg.MINUTE_WINDOW ≤ cfg.HOUR_WINDOW)
    (hinv : StoreInv now st) :
    StoreInv now (checkRateLimit cfg now ip st).2 := by
  have hdata : RecordInv now ((Store.get st ip).getD emptyRecord) := by
    cases hget : Store.get st ip with
    | none => exact recordInv_emptyRecord now
    | some r => exact hinv ip r hget
  intro ip' r' hget'
  by_cases hip : ip = ip'
  · subst hip
    rcases hb : ((Store.get st ip).getD emptyRecord).blockedUntil with _ | b
    · simp only [checkRateLimit, hb, Store.get_set_self] at hget'
      obtain rfl : (checkUnblocked cfg now
          ((Store.get st ip).getD emptyRecord)).2 = r' :=
        Option.some_injective _ hget'
      exact checkUnblocked_recordInv cfg now _ hW hdata
    · by_cases hlt : now < b
      · simp only [checkRateLimit, hb, if_pos hlt,
          Store.get_set_self] at hget'
        obtain rfl : (Store.get st ip).getD emptyRecord = r' :=
          Option.some_injective _ hget'
        exact hdata
      · simp only [checkRateLimit, hb, if_neg hlt,
          Store.get_set_self] at hget'
        obtain rfl : (checkUnblocked cfg now
            { (Store.get st ip).getD emptyRecord with
                blockedUntil := none }).2 = r' :=
          Option.some_injective _ hget'
        exact checkUnblocked_recordInv cfg now _ hW
          ⟨hdata.1, hdata.2.1, hdata.2.2⟩
  · rw [checkRateLimit_frame_other cfg now ip ip' st hip] at hget'
    exact hinv ip' r' hget'

theorem runEvents_storeInv (cfg : RateLimitConfig)
    (hW : cfg.MINUTE_WINDOW ≤ cfg.HOUR_WINDOW) :
    ∀ (events : List (Int × String)) (st : Store) (now₀ : Int),
      StoreInv now₀ st →
      (now₀ :: events.map Prod.fst).Pairwise (· ≤ ·) →
      ∃ now₁, StoreInv now₁ (runEvents cfg events st) := by
  intro events
  induction events with
  | nil => intro st now₀ hinv _; exact ⟨now₀, hinv⟩
  | cons e es ih =>
      intro st now₀ hinv hp
      rcases List.pairwise_cons.mp hp with ⟨hle, hp'⟩
      have hle0 : now₀ ≤ e.1 := hle e.1 (by simp)
      have hinv' : StoreInv e.1 st := fun ip r hget =>
        (hinv ip r hget).mono hle0
      exact ih (checkRateLimit cfg e.1 e.2 st).2 e.1
        (checkRateLimit_storeInv cfg e.1 e.2 st hW hinv') hp'

/-- Claim C10 (Implicit window-nesting invariant).  Assuming
`MINUTE_WINDOW ≤ HOUR_WINDOW` and a non-decreasing clock across the
calls, after any sequence of checks (any identities, starting from the
empty map) every record's `minuteTimestamps` is a suffix of its
`hourTimestamps`: every allowed call appends the same `now` to both
sequences, and the short-window prune keeps a suffix of what the
long-window prune keeps. -/
theorem short_window_suffix_of_long_window (cfg : RateLimitConfig)
    (hW : cfg.MINUTE_WINDOW ≤ cfg.HOUR_WINDOW)
    (events : List (Int × String))
    (hmono : (events.map Prod.fst).Chain' (· ≤ ·)) :
    ∀ ip r, Store.get (runEvents cfg events []) ip = some r →
      r.minuteTimestamps.IsSuffix r.hourTimestamps := by
  cases events with
  | nil =>
      intro ip r hget
      simp [runEvents, Store.get] at hget
  | cons e es =>
      have hpair : (e.1 :: (e :: es).map Prod.fst).Pairwise (· ≤ ·) := by
        simp only [List.map_cons] at hmono ⊢
        have hp : (e.1 :: es.map Prod.fst).Pairwise (· ≤ ·) :=
          List.chain'_iff_pairwise.mp hmono
        refine List.pairwise_cons.mpr ⟨?_, hp⟩
        intro b hb
        rcases List.mem_cons.mp hb with h | h
        · exact le_of_eq h.symm
        · exact (List.pairwise_cons.mp hp).1 b h
      have hempty : StoreInv e.1 ([] : Store) := by
        intro ip r hget
        simp [Store.get] at hget
      obtain ⟨now₁, hinv⟩ :=
        runEvents_storeInv cfg hW (e :: es) [] e.1 hempty hpair
      intro ip r hget
      exact (hinv ip r hget).1

/-- Witness for claim C10 at a concrete input: two identities, three
checks with a non-decreasing clock. -/
theorem short_window_suffix_witness :
    ([0] : List Int).IsSuffix [0] :=
  short_window_suffix_of_long_window scenarioConfig (by decide)
    [(0, "A")] (by simp) "A" ⟨[0], [0], none⟩ (by decide)

/-- Witness for claim C6 at a concrete input. -/
theorem prune_invariant_witness :
    ((7 : Int) - 5 < 10) ∧
    (cleanupOldEntries 400000
        [("A", ⟨[399999], [399999], none⟩)]).Sublist
      [("A", ⟨[399999], [399999], none⟩)] :=
  ⟨prune_invariant_and_sweep_never_prunes.1 10 7 5 [5] (by decide),
   prune_invariant_and_sweep_never_prunes.2 400000
     [("A", ⟨[399999], [399999], none⟩)]⟩

end RateLimiter
